import Mathlib

/-!
# Verification of the `aleph-subscriptions` proof subsystem

This file embeds the age-range zero-knowledge-proof subsystem of the
`aleph-subscriptions` repository (Rust, `halo2_proofs`-based) and settles the
specification claims against it.

The embedding works at the constraint-system level, which is exactly the
verification contract the specification fixes for the external verifier:
a proof verifies iff the committed cell assignment satisfies the circuit's
gate and copy constraints against the supplied public-input vector.
The gate polynomial, the row assignment, the public-input construction and
the serialization plumbing are translated from the Rust source
(`src/proofs/src/chips/in_range1.rs`, `src/proofs/src/proofs.rs`,
`src/subscriptions-client/src/min_age_proof_ops.rs`).  Library functionality
(`halo2`'s keygen, prover, transcript, and raw-byte codecs; the OS entropy
source) lives outside this repository; where a claim depends on it, the
library behaviour is modelled from the specification and the model is
clearly marked in the doc comment of the corresponding definition.

The scalar field of BN254 (`Fr`, called `Fp` in the source) is embedded as
`ZMod frOrder`; the primality of `frOrder`, needed for range soundness, is
proved from scratch via Pocklington/Lucas certificates.
-/

set_option maxHeartbeats 1000000
set_option maxRecDepth 100000
set_option exponentiation.threshold 400

namespace AlephSubscriptions

/-! ## Fast modular exponentiation

Used only to check primality certificates by kernel computation. -/

/-- Binary modular exponentiation with explicit fuel (the fuel bounds the
number of halvings of the exponent, so `e < 2 ^ fuel` suffices). -/
def powModAux (m : ℕ) : ℕ → ℕ → ℕ → ℕ
  | _, _, 0 => 1 % m
  | b, e, fuel + 1 =>
    if e = 0 then 1 % m
    else
      let h := powModAux m (b * b % m) (e / 2) fuel
      if e % 2 = 1 then b * h % m else h

/-- `powMod m b e = b ^ e % m` for every exponent below `2 ^ 300`, computed by
repeated squaring (the fixed fuel keeps kernel evaluation shallow). -/
def powMod (m b e : ℕ) : ℕ := powModAux m b e 300

theorem powModAux_eq (m : ℕ) :
    ∀ fuel b e : ℕ, e < 2 ^ fuel → powModAux m b e fuel = b ^ e % m := by
  intro fuel
  induction fuel with
  | zero =>
    intro b e he
    have h0 : e = 0 := by simpa using he
    subst h0
    simp [powModAux]
  | succ n ih =>
    intro b e he
    by_cases h0 : e = 0
    · subst h0
      simp [powModAux]
    · have h2 : e / 2 < 2 ^ n := by
        have hlt : e < 2 ^ n * 2 := by
          have := he
          rw [pow_succ] at this
          exact this
        omega
      have hrec := ih (b * b % m) (e / 2) h2
      have hpow : (b * b % m) ^ (e / 2) % m = (b * b) ^ (e / 2) % m :=
        (Nat.pow_mod (b * b) (e / 2) m).symm
      rw [powModAux]
      rw [if_neg h0]
      simp only [hrec, hpow]
      by_cases hodd : e % 2 = 1
      · rw [if_pos hodd]
        obtain ⟨k, hk⟩ : ∃ k, e = 2 * k + 1 := ⟨e / 2, by omega⟩
        subst hk
        have hdk : (2 * k + 1) / 2 = k := by omega
        rw [hdk]
        calc b * ((b * b) ^ k % m) % m
            = b % m * ((b * b) ^ k % m % m) % m := by rw [Nat.mul_mod]
          _ = b % m * ((b * b) ^ k % m) % m := by
              rw [Nat.mod_mod_of_dvd _ dvd_rfl]
          _ = b * (b * b) ^ k % m := by rw [← Nat.mul_mod]
          _ = b ^ (2 * k + 1) % m := by ring_nf
      · rw [if_neg hodd]
        obtain ⟨k, hk⟩ : ∃ k, e = 2 * k := ⟨e / 2, by omega⟩
        subst hk
        have hdk : 2 * k / 2 = k := by omega
        rw [hdk]
        congr 1
        ring

theorem powMod_eq (m b e : ℕ) (he : e < 2 ^ 300) : powMod m b e = b ^ e % m :=
  powModAux_eq m 300 b e he

/-- Casting `powMod` into `ZMod m` recovers the monoid power. -/
theorem powMod_cast (m b e : ℕ) (he : e < 2 ^ 300) :
    ((powMod m b e : ℕ) : ZMod m) = (b : ZMod m) ^ e := by
  rw [powMod_eq m b e he, ZMod.natCast_mod, Nat.cast_pow]

/-- A Fermat/Lucas-style check on a single exponent: if the kernel-computable
`powMod` does not return `1`, the cast power is not `1` in `ZMod p`. -/
theorem pow_ne_one_of_powMod_ne_one {p g e : ℕ} (hp : 1 < p) (he : e < 2 ^ 300)
    (h : powMod p g e ≠ 1) : (g : ZMod p) ^ e ≠ 1 := by
  haveI : NeZero p := ⟨by omega⟩
  haveI : Fact (1 < p) := ⟨hp⟩
  intro hone
  apply h
  have hcast : ((powMod p g e : ℕ) : ZMod p) = 1 := by
    rw [powMod_cast p g e he]; exact hone
  have hlt : powMod p g e < p := by
    rw [powMod_eq p g e he]; exact Nat.mod_lt _ (by omega)
  have hval : ((powMod p g e : ℕ) : ZMod p).val = powMod p g e :=
    ZMod.val_cast_of_lt hlt
  rw [hcast, ZMod.val_one] at hval
  omega

theorem pow_eq_one_of_powMod_eq_one {p g e : ℕ} (he : e < 2 ^ 300)
    (h : powMod p g e = 1) : (g : ZMod p) ^ e = 1 := by
  rw [← powMod_cast p g e he, h, Nat.cast_one]

/-! ## Primality by bounded trial division -/

/-- `noDivIn n a len fuel = true` certifies that no `d` with
`a ≤ d < a + len` divides `n`.  The interval is split in halves so that the
evaluation depth stays logarithmic in `len` (kernel-friendly); exhausted fuel
yields `true` only for the empty interval, which keeps the check sound. -/
def noDivIn (n : ℕ) : ℕ → ℕ → ℕ → Bool
  | len, _, 0 => len == 0
  | len, a, fuel + 1 =>
    if len = 0 then true
    else if len = 1 then n % a != 0
    else noDivIn n (len / 2) a fuel && noDivIn n (len - len / 2) (a + len / 2) fuel

theorem noDivIn_sound (n : ℕ) :
    ∀ fuel len a, noDivIn n len a fuel = true →
      ∀ d, a ≤ d → d < a + len → n % d ≠ 0 := by
  intro fuel
  induction fuel with
  | zero =>
    intro len a h d hda hdl
    have hlen : len = 0 := by simpa [noDivIn] using h
    omega
  | succ k ih =>
    intro len a h d hda hdl
    rw [noDivIn] at h
    by_cases h0 : len = 0
    · omega
    · rw [if_neg h0] at h
      by_cases h1 : len = 1
      · rw [if_pos h1] at h
        have hd : d = a := by omega
        subst hd
        simpa using h
      · rw [if_neg h1] at h
        rw [Bool.and_eq_true] at h
        obtain ⟨hl, hr⟩ := h
        by_cases hw : d < a + len / 2
        · exact ih (len / 2) a hl d hda hw
        · exact ih (len - len / 2) (a + len / 2) hr d (by omega) (by omega)

/-- If no `d` with `2 ≤ d ≤ c + 1` divides `n`, and `(c + 2) ^ 2 > n`, then
`n` is prime.  The divisor check is a kernel-computable boolean. -/
theorem prime_of_trial_div (n c fuel : ℕ) (h2 : 2 ≤ n)
    (hcov : n < (c + 2) * (c + 2))
    (hall : noDivIn n c 2 fuel = true) :
    Nat.Prime n := by
  rw [Nat.prime_def_le_sqrt]
  refine ⟨h2, fun m hm2 hmsq hdvd => ?_⟩
  have hmm : m * m ≤ n := Nat.le_sqrt.mp hmsq
  have hmc : m < 2 + c := by nlinarith
  have hchk := noDivIn_sound n fuel c 2 hall m hm2 (by omega)
  obtain ⟨t, rfl⟩ := hdvd
  exact hchk (Nat.mul_mod_right m t)

/-- A prime dividing a prime power equals the base. -/
theorem prime_eq_of_dvd_pow {q r k : ℕ} (hq : q.Prime) (hr : r.Prime)
    (h : q ∣ r ^ k) : q = r :=
  (Nat.prime_dvd_prime_iff_eq hq hr).mp (hq.dvd_of_dvd_pow h)

/-- A prime dividing a prime equals it. -/
theorem prime_eq_of_dvd {q r : ℕ} (hq : q.Prime) (hr : r.Prime)
    (h : q ∣ r) : q = r :=
  (Nat.prime_dvd_prime_iff_eq hq hr).mp h

/-! ## Primality of the BN254 scalar-field order

The source instantiates `halo2curves::bn256::Fr` (aliased `Fp`); its order is
the 254-bit prime below.  Range soundness of the gate needs this primality
(`ZMod frOrder` must have no zero divisors), so we certify it with a chain of
Lucas certificates whose power computations are checked by the kernel via
`powMod`. -/

theorem prime_405928799 : Nat.Prime 405928799 :=
  prime_of_trial_div 405928799 20146 64 (by norm_num) (by norm_num) (by decide)

theorem prime_639533339 : Nat.Prime 639533339 :=
  prime_of_trial_div 639533339 25287 64 (by norm_num) (by norm_num) (by decide)

theorem prime_12048837557 : Nat.Prime 12048837557 := by
  apply lucas_primality 12048837557 ((2 : ℕ) : ZMod 12048837557)
  · exact pow_eq_one_of_powMod_eq_one (by decide) (by decide)
  · intro q hq hdvd
    have hfac : (12048837557 - 1 : ℕ) = 2 ^ 2 * (7 ^ 2 * (661 * 93001)) := by norm_num
    rw [hfac] at hdvd
    rcases (Nat.Prime.dvd_mul hq).mp hdvd with h | h
    · have hq2 : q = 2 := prime_eq_of_dvd_pow hq (by norm_num) h
      subst hq2
      exact pow_ne_one_of_powMod_ne_one (by norm_num) (by decide) (by decide)
    rcases (Nat.Prime.dvd_mul hq).mp h with h | h
    · have hq2 : q = 7 := prime_eq_of_dvd_pow hq (by norm_num) h
      subst hq2
      exact pow_ne_one_of_powMod_ne_one (by norm_num) (by decide) (by decide)
    rcases (Nat.Prime.dvd_mul hq).mp h with h | h
    · have hq2 : q = 661 := prime_eq_of_dvd hq (by norm_num) h
      subst hq2
      exact pow_ne_one_of_powMod_ne_one (by norm_num) (by decide) (by decide)
    · have hq2 : q = 93001 := prime_eq_of_dvd hq (by norm_num) h
      subst hq2
      exact pow_ne_one_of_powMod_ne_one (by norm_num) (by decide) (by decide)

theorem prime_5156902474397 : Nat.Prime 5156902474397 := by
  apply lucas_primality 5156902474397 ((2 : ℕ) : ZMod 5156902474397)
  · exact pow_eq_one_of_powMod_eq_one (by decide) (by decide)
  · intro q hq hdvd
    have hfac : (5156902474397 - 1 : ℕ) = 2 ^ 2 * (107 * 12048837557) := by norm_num
    rw [hfac] at hdvd
    rcases (Nat.Prime.dvd_mul hq).mp hdvd with h | h
    · have hq2 : q = 2 := prime_eq_of_dvd_pow hq (by norm_num) h
      subst hq2
      exact pow_ne_one_of_powMod_ne_one (by norm_num) (by decide) (by decide)
    rcases (Nat.Prime.dvd_mul hq).mp h with h | h
    · have hq2 : q = 107 := prime_eq_of_dvd hq (by norm_num) h
      subst hq2
      exact pow_ne_one_of_powMod_ne_one (by norm_num) (by decide) (by decide)
    · have hq2 : q = 12048837557 := prime_eq_of_dvd hq prime_12048837557 h
      subst hq2
      exact pow_ne_one_of_powMod_ne_one (by norm_num) (by decide) (by decide)

theorem prime_1670836401704629 : Nat.Prime 1670836401704629 := by
  apply lucas_primality 1670836401704629 ((2 : ℕ) : ZMod 1670836401704629)
  · exact pow_eq_one_of_powMod_eq_one (by decide) (by decide)
  · intro q hq hdvd
    have hfac : (1670836401704629 - 1 : ℕ) = 2 ^ 2 * (3 ^ 4 * 5156902474397) := by
      norm_num
    rw [hfac] at hdvd
    rcases (Nat.Prime.dvd_mul hq).mp hdvd with h | h
    · have hq2 : q = 2 := prime_eq_of_dvd_pow hq (by norm_num) h
      subst hq2
      exact pow_ne_one_of_powMod_ne_one (by norm_num) (by decide) (by decide)
    rcases (Nat.Prime.dvd_mul hq).mp h with h | h
    · have hq2 : q = 3 := prime_eq_of_dvd_pow hq (by norm_num) h
      subst hq2
      exact pow_ne_one_of_powMod_ne_one (by norm_num) (by decide) (by decide)
    · have hq2 : q = 5156902474397 := prime_eq_of_dvd hq prime_5156902474397 h
      subst hq2
      exact pow_ne_one_of_powMod_ne_one (by norm_num) (by decide) (by decide)

theorem prime_65865678001877903 : Nat.Prime 65865678001877903 := by
  apply lucas_primality 65865678001877903 ((5 : ℕ) : ZMod 65865678001877903)
  · exact pow_eq_one_of_powMod_eq_one (by decide) (by decide)
  · intro q hq hdvd
    have hfac : (65865678001877903 - 1 : ℕ) =
        2 * (83 * (379 * (1637 * 639533339))) := by norm_num
    rw [hfac] at hdvd
    rcases (Nat.Prime.dvd_mul hq).mp hdvd with h | h
    · have hq2 : q = 2 := prime_eq_of_dvd hq (by norm_num) h
      subst hq2
      exact pow_ne_one_of_powMod_ne_one (by norm_num) (by decide) (by decide)
    rcases (Nat.Prime.dvd_mul hq).mp h with h | h
    · have hq2 : q = 83 := prime_eq_of_dvd hq (by norm_num) h
      subst hq2
      exact pow_ne_one_of_powMod_ne_one (by norm_num) (by decide) (by decide)
    rcases (Nat.Prime.dvd_mul hq).mp h with h | h
    · have hq2 : q = 379 := prime_eq_of_dvd hq (by norm_num) h
      subst hq2
      exact pow_ne_one_of_powMod_ne_one (by norm_num) (by decide) (by decide)
    rcases (Nat.Prime.dvd_mul hq).mp h with h | h
    · have hq2 : q = 1637 := prime_eq_of_dvd hq (by norm_num) h
      subst hq2
      exact pow_ne_one_of_powMod_ne_one (by norm_num) (by decide) (by decide)
    · have hq2 : q = 639533339 := prime_eq_of_dvd hq prime_639533339 h
      subst hq2
      exact pow_ne_one_of_powMod_ne_one (by norm_num) (by decide) (by decide)

theorem prime_13818364434197438864469338081 :
    Nat.Prime 13818364434197438864469338081 := by
  apply lucas_primality 13818364434197438864469338081
    ((3 : ℕ) : ZMod 13818364434197438864469338081)
  · exact pow_eq_one_of_powMod_eq_one (by decide) (by decide)
  · intro q hq hdvd
    have hfac : (13818364434197438864469338081 - 1 : ℕ) =
        2 ^ 5 * (5 * (823 * (1593227 * 65865678001877903))) := by norm_num
    rw [hfac] at hdvd
    rcases (Nat.Prime.dvd_mul hq).mp hdvd with h | h
    · have hq2 : q = 2 := prime_eq_of_dvd_pow hq (by norm_num) h
      subst hq2
      exact pow_ne_one_of_powMod_ne_one (by norm_num) (by decide) (by decide)
    rcases (Nat.Prime.dvd_mul hq).mp h with h | h
    · have hq2 : q = 5 := prime_eq_of_dvd hq (by norm_num) h
      subst hq2
      exact pow_ne_one_of_powMod_ne_one (by norm_num) (by decide) (by decide)
    rcases (Nat.Prime.dvd_mul hq).mp h with h | h
    · have hq2 : q = 823 := prime_eq_of_dvd hq (by norm_num) h
      subst hq2
      exact pow_ne_one_of_powMod_ne_one (by norm_num) (by decide) (by decide)
    rcases (Nat.Prime.dvd_mul hq).mp h with h | h
    · have hq2 : q = 1593227 := prime_eq_of_dvd hq (by norm_num) h
      subst hq2
      exact pow_ne_one_of_powMod_ne_one (by norm_num) (by decide) (by decide)
    · have hq2 : q = 65865678001877903 := prime_eq_of_dvd hq prime_65865678001877903 h
      subst hq2
      exact pow_ne_one_of_powMod_ne_one (by norm_num) (by decide) (by decide)

/-- Order of the BN254 (alt_bn128) scalar field `Fr`, the field the source
aliases as `Fp` (`halo2curves::bn256::Fr`). -/
def frOrder : ℕ :=
  21888242871839275222246405745257275088548364400416034343698204186575808495617

theorem frOrder_prime : Nat.Prime frOrder := by
  rw [frOrder]
  apply lucas_primality _ ((5 : ℕ) : ZMod _)
  · exact pow_eq_one_of_powMod_eq_one (by decide) (by decide)
  · intro q hq hdvd
    have hfac : (21888242871839275222246405745257275088548364400416034343698204186575808495617 - 1 : ℕ) =
        2 ^ 28 * (3 ^ 2 * (13 * (29 * (983 * (11003 * (237073 * (405928799 *
          (1670836401704629 * 13818364434197438864469338081)))))))) := by norm_num
    rw [hfac] at hdvd
    rcases (Nat.Prime.dvd_mul hq).mp hdvd with h | h
    · have hq2 : q = 2 := prime_eq_of_dvd_pow hq (by norm_num) h
      subst hq2
      exact pow_ne_one_of_powMod_ne_one (by norm_num) (by decide) (by decide)
    rcases (Nat.Prime.dvd_mul hq).mp h with h | h
    · have hq2 : q = 3 := prime_eq_of_dvd_pow hq (by norm_num) h
      subst hq2
      exact pow_ne_one_of_powMod_ne_one (by norm_num) (by decide) (by decide)
    rcases (Nat.Prime.dvd_mul hq).mp h with h | h
    · have hq2 : q = 13 := prime_eq_of_dvd hq (by norm_num) h
      subst hq2
      exact pow_ne_one_of_powMod_ne_one (by norm_num) (by decide) (by decide)
    rcases (Nat.Prime.dvd_mul hq).mp h with h | h
    · have hq2 : q = 29 := prime_eq_of_dvd hq (by norm_num) h
      subst hq2
      exact pow_ne_one_of_powMod_ne_one (by norm_num) (by decide) (by decide)
    rcases (Nat.Prime.dvd_mul hq).mp h with h | h
    · have hq2 : q = 983 := prime_eq_of_dvd hq (by norm_num) h
      subst hq2
      exact pow_ne_one_of_powMod_ne_one (by norm_num) (by decide) (by decide)
    rcases (Nat.Prime.dvd_mul hq).mp h with h | h
    · have hq2 : q = 11003 := prime_eq_of_dvd hq (by norm_num) h
      subst hq2
      exact pow_ne_one_of_powMod_ne_one (by norm_num) (by decide) (by decide)
    rcases (Nat.Prime.dvd_mul hq).mp h with h | h
    · have hq2 : q = 237073 := prime_eq_of_dvd hq (by norm_num) h
      subst hq2
      exact pow_ne_one_of_powMod_ne_one (by norm_num) (by decide) (by decide)
    rcases (Nat.Prime.dvd_mul hq).mp h with h | h
    · have hq2 : q = 405928799 := prime_eq_of_dvd hq prime_405928799 h
      subst hq2
      exact pow_ne_one_of_powMod_ne_one (by norm_num) (by decide) (by decide)
    rcases (Nat.Prime.dvd_mul hq).mp h with h | h
    · have hq2 : q = 1670836401704629 := prime_eq_of_dvd hq prime_1670836401704629 h
      subst hq2
      exact pow_ne_one_of_powMod_ne_one (by norm_num) (by decide) (by decide)
    · have hq2 : q = 13818364434197438864469338081 :=
        prime_eq_of_dvd hq prime_13818364434197438864469338081 h
      subst hq2
      exact pow_ne_one_of_powMod_ne_one (by norm_num) (by decide) (by decide)

instance : NeZero frOrder := ⟨by rw [frOrder]; omega⟩

instance : Fact (Nat.Prime frOrder) := ⟨frOrder_prime⟩

/-! ## Field, accounts and public input

Embedding of the data model of `src/proofs/src/proofs.rs`. -/

/-- The source aliases `bn256::Fr` as `Fp`; all witness, constant and public
values are elements of this field. -/
abbrev Fp := ZMod frOrder

/-- `pub type Account = [u8; 32]` (`proofs.rs`): a 32-byte on-chain account. -/
abbrev Account := Fin 32 → Fin 256

/-- Little-endian interpretation of a byte list, as `u128::from_le_bytes`
reads a 16-byte slice. -/
def leBytesToNat : List ℕ → ℕ
  | [] => 0
  | b :: bs => b + 256 * leBytesToNat bs

/-- The slice `account[..16]` (bytes 0–15, in order). -/
def lowBytes (acc : Account) : List ℕ :=
  [acc 0, acc 1, acc 2, acc 3, acc 4, acc 5, acc 6, acc 7,
   acc 8, acc 9, acc 10, acc 11, acc 12, acc 13, acc 14, acc 15]

/-- The slice `account[16..]` (bytes 16–31, in order). -/
def highBytes (acc : Account) : List ℕ :=
  [acc 16, acc 17, acc 18, acc 19, acc 20, acc 21, acc 22, acc 23,
   acc 24, acc 25, acc 26, acc 27, acc 28, acc 29, acc 30, acc 31]

/-- `u128::from_le_bytes(account[..16])`. -/
def accountLow (acc : Account) : ℕ := leBytesToNat (lowBytes acc)

/-- `u128::from_le_bytes(account[16..])`. -/
def accountHigh (acc : Account) : ℕ := leBytesToNat (highBytes acc)

/-- `MinAgeProof::public_input` (`proofs.rs` lines 153–159): the fixed-order
public-input vector
`[Fp::from_u128(RANGE_FROM), Fp::from_u128(low half), Fp::from_u128(high half)]`. -/
def public_input (RANGE_FROM : ℕ) (acc : Account) : Fin 3 → Fp
  | ⟨0, _⟩ => (RANGE_FROM : Fp)
  | ⟨1, _⟩ => (accountLow acc : Fp)
  | ⟨2, _⟩ => (accountHigh acc : Fp)

theorem public_input_zero (F : ℕ) (acc : Account) :
    public_input F acc 0 = (F : Fp) := rfl

theorem public_input_one (F : ℕ) (acc : Account) :
    public_input F acc 1 = (accountLow acc : Fp) := rfl

theorem public_input_two (F : ℕ) (acc : Account) :
    public_input F acc 2 = (accountHigh acc : Fp) := rfl

/-! ## The range gate and its row assignment

Embedding of `src/proofs/src/chips/in_range1.rs`. -/

/-- `in_range_exp` from `InRangeChip::configure` (lines 79–83): the fold
`(range_from..range_to).fold(ONE, |expr, i| expr * (C(i) - v))`, i.e. the
product `∏ (i - v)` over the half-open integer range. -/
def in_range_exp (range_from range_to : ℕ) (v : Fp) : Fp :=
  (List.range' range_from (range_to - range_from)).foldl
    (fun expr (i : ℕ) => expr * ((i : Fp) - v)) 1

/-- The single custom gate of `InRangeChip::configure` (lines 71–92), at a
row where the selector is enabled:
`in_range_exp(RANGE_FROM, RANGE_TO, value) + q_a * a + instance == 0`. -/
def gateHolds (F T : ℕ) (v a q_a inst : Fp) : Prop :=
  in_range_exp F T v + q_a * a + inst = 0

/-- The advice and fixed cells of the three selector-enabled rows of the
region laid out by `InRangeChip::assign`. -/
structure CellAssignment where
  value0 : Fp
  a0 : Fp
  qa0 : Fp
  value1 : Fp
  a1 : Fp
  qa1 : Fp
  value2 : Fp
  a2 : Fp
  qa2 : Fp

/-- `InRangeChip::assign` (lines 105–181): row 0 carries the witness `value`,
the constant `RANGE_FROM` in column `a` and `-1` in `q_a`; rows 1 and 2 carry
the in-range filler `RANGE_FROM` in the value column, copies of instance
cells 1 and 2 in column `a` (via `assign_advice_from_instance`) and `-1` in
`q_a`.  `inst` is the instance column visible to the prover, i.e. the
public-input vector it was invoked with. -/
def assign (RANGE_FROM : ℕ) (value : Fp) (inst : Fin 3 → Fp) : CellAssignment :=
  { value0 := value
    a0 := (RANGE_FROM : Fp)
    qa0 := -1
    value1 := (RANGE_FROM : Fp)
    a1 := inst 1
    qa1 := -1
    value2 := (RANGE_FROM : Fp)
    a2 := inst 2
    qa2 := -1 }

/-- Modelled from the spec: `verify_proof` (halo2 library code, not part of
this repository).  The specification fixes the verification contract (§4.4):
verification "succeeds iff the proof was produced for this exact circuit
shape, this exact public-input vector, and a witness satisfying the range
gate".  Accordingly a proof — identified with the cell assignment the prover
committed to — verifies against a public-input vector `inst` iff the gate
holds on each of the three selector-enabled rows with the verifier's instance
column `inst`, and the two copy constraints created by
`assign_advice_from_instance` (advice `a` of rows 1 and 2 equal to instance
cells 1 and 2) hold against `inst`. -/
def verifies (F T : ℕ) (cells : CellAssignment) (inst : Fin 3 → Fp) : Prop :=
  gateHolds F T cells.value0 cells.a0 cells.qa0 (inst 0) ∧
  gateHolds F T cells.value1 cells.a1 cells.qa1 (inst 1) ∧
  gateHolds F T cells.value2 cells.a2 cells.qa2 (inst 2) ∧
  cells.a1 = inst 1 ∧ cells.a2 = inst 2

/-! ## Arithmetic facts about the gate -/

theorem foldl_mul_eq_prod (g : ℕ → Fp) :
    ∀ (l : List ℕ) (init : Fp),
      l.foldl (fun e (i : ℕ) => e * g i) init = init * (l.map g).prod := by
  intro l
  induction l with
  | nil => intro init; simp
  | cons b bs ih =>
    intro init
    rw [List.foldl_cons, ih, List.map_cons, List.prod_cons, mul_assoc]

theorem in_range_exp_eq_prod (F T : ℕ) (v : Fp) :
    in_range_exp F T v =
      ((List.range' F (T - F)).map (fun (i : ℕ) => (i : Fp) - v)).prod := by
  rw [in_range_exp, foldl_mul_eq_prod ((fun (i : ℕ) => (i : Fp) - v)), one_mul]

/-- Completeness of the range product: an in-range integer witness zeroes it. -/
theorem in_range_exp_eq_zero {F T j : ℕ} (h1 : F ≤ j) (h2 : j < T) :
    in_range_exp F T ((j : ℕ) : Fp) = 0 := by
  rw [in_range_exp_eq_prod]
  apply List.prod_eq_zero
  refine List.mem_map.mpr ⟨j, ?_, by simp⟩
  rw [List.mem_range'_1]
  exact ⟨h1, by omega⟩

theorem natCast_fp_inj {a b : ℕ} (ha : a < frOrder) (hb : b < frOrder)
    (h : (a : Fp) = (b : Fp)) : a = b := by
  have hv := congrArg ZMod.val h
  rwa [ZMod.val_cast_of_lt ha, ZMod.val_cast_of_lt hb] at hv

theorem two_pow_64_lt_frOrder : 2 ^ 64 < frOrder := by rw [frOrder]; norm_num

theorem two_pow_128_lt_frOrder : 2 ^ 128 < frOrder := by rw [frOrder]; norm_num

/-- Soundness of the range product: an out-of-range integer witness below the
field order leaves every factor, hence the whole product, nonzero.  This is
where primality of `frOrder` is needed. -/
theorem in_range_exp_ne_zero {F T a : ℕ} (ha : a < frOrder) (hT : T ≤ frOrder)
    (hout : a < F ∨ T ≤ a) : in_range_exp F T ((a : ℕ) : Fp) ≠ 0 := by
  rw [in_range_exp_eq_prod]
  apply List.prod_ne_zero
  intro hmem
  obtain ⟨i, hi, hzero⟩ := List.mem_map.mp hmem
  rw [List.mem_range'_1] at hi
  have hcast : (i : Fp) = (a : Fp) := sub_eq_zero.mp hzero
  have hilt : i < frOrder := by omega
  have := natCast_fp_inj hilt ha hcast
  omega

/-! ## Honest verification characterised -/

/-- For the production policy `[18, 120)` and an age fitting in `u64`, the
honestly generated proof for `acc` verifies against `public_input acc`
exactly when the age is in range. -/
theorem honest_verifies_iff (age : ℕ) (acc : Account) (hage : age < 2 ^ 64) :
    verifies 18 120 (assign 18 ((age : ℕ) : Fp) (public_input 18 acc))
        (public_input 18 acc) ↔
      18 ≤ age ∧ age < 120 := by
  have hlt : age < frOrder := lt_trans hage two_pow_64_lt_frOrder
  constructor
  · rintro ⟨h0, -, -, -, -⟩
    rw [gateHolds] at h0
    simp only [assign] at h0
    rw [public_input_zero] at h0
    have hexp : in_range_exp 18 120 ((age : ℕ) : Fp) = 0 := by
      linear_combination h0
    by_contra hout
    exact in_range_exp_ne_zero hlt
      (by rw [frOrder]; norm_num) (by omega) hexp
  · rintro ⟨h1, h2⟩
    refine ⟨?_, ?_, ?_, rfl, rfl⟩
    · rw [gateHolds]
      simp only [assign]
      rw [public_input_zero, in_range_exp_eq_zero h1 h2]
      ring
    · rw [gateHolds]
      simp only [assign]
      rw [in_range_exp_eq_zero (le_refl 18) (by omega)]
      ring
    · rw [gateHolds]
      simp only [assign]
      rw [in_range_exp_eq_zero (le_refl 18) (by omega)]
      ring

/-! ## The account halves determine the account -/

theorem accountLow_lt (acc : Account) : accountLow acc < 2 ^ 128 := by
  have h : ∀ l : List ℕ, (∀ b ∈ l, b < 256) → leBytesToNat l < 256 ^ l.length := by
    intro l
    induction l with
    | nil => intro trivia; simp [leBytesToNat]
    | cons b bs ih =>
      intro hb
      have h1 : b < 256 := hb b (List.mem_cons_self b bs)
      have h2 : leBytesToNat bs < 256 ^ bs.length :=
        ih (fun x hx => hb x (List.mem_cons_of_mem b hx))
      simp only [leBytesToNat, List.length_cons, pow_succ]
      calc b + 256 * leBytesToNat bs
          < 256 + 256 * leBytesToNat bs := by omega
        _ ≤ 256 * 256 ^ bs.length := by nlinarith
        _ = 256 ^ bs.length * 256 := by ring
  have hlen : (lowBytes acc).length = 16 := rfl
  have hb : ∀ b ∈ lowBytes acc, b < 256 := by
    intro b hb
    simp only [lowBytes, List.mem_cons, List.not_mem_nil, or_false] at hb
    rcases hb with rfl|rfl|rfl|rfl|rfl|rfl|rfl|rfl|rfl|rfl|rfl|rfl|rfl|rfl|rfl|rfl <;>
      exact (acc _).isLt
  have := h (lowBytes acc) hb
  rw [hlen] at this
  calc accountLow acc < 256 ^ 16 := this
    _ = 2 ^ 128 := by norm_num

theorem accountHigh_lt (acc : Account) : accountHigh acc < 2 ^ 128 := by
  have h : ∀ l : List ℕ, (∀ b ∈ l, b < 256) → leBytesToNat l < 256 ^ l.length := by
    intro l
    induction l with
    | nil => intro trivia; simp [leBytesToNat]
    | cons b bs ih =>
      intro hb
      have h1 : b < 256 := hb b (List.mem_cons_self b bs)
      have h2 : leBytesToNat bs < 256 ^ bs.length :=
        ih (fun x hx => hb x (List.mem_cons_of_mem b hx))
      simp only [leBytesToNat, List.length_cons, pow_succ]
      calc b + 256 * leBytesToNat bs
          < 256 + 256 * leBytesToNat bs := by omega
        _ ≤ 256 * 256 ^ bs.length := by nlinarith
        _ = 256 ^ bs.length * 256 := by ring
  have hlen : (highBytes acc).length = 16 := rfl
  have hb : ∀ b ∈ highBytes acc, b < 256 := by
    intro b hb
    simp only [highBytes, List.mem_cons, List.not_mem_nil, or_false] at hb
    rcases hb with rfl|rfl|rfl|rfl|rfl|rfl|rfl|rfl|rfl|rfl|rfl|rfl|rfl|rfl|rfl|rfl <;>
      exact (acc _).isLt
  have := h (highBytes acc) hb
  rw [hlen] at this
  calc accountHigh acc < 256 ^ 16 := this
    _ = 2 ^ 128 := by norm_num

/-- Base-256 digit uniqueness: equal little-endian halves force equal
accounts. -/
theorem account_eq_of_halves_eq {X Y : Account}
    (hl : accountLow X = accountLow Y) (hh : accountHigh X = accountHigh Y) :
    X = Y := by
  simp only [accountLow, accountHigh, lowBytes, highBytes, leBytesToNat] at hl hh
  have hx0 := (X (0 : Fin 32)).isLt
  have hx1 := (X (1 : Fin 32)).isLt
  have hx2 := (X (2 : Fin 32)).isLt
  have hx3 := (X (3 : Fin 32)).isLt
  have hx4 := (X (4 : Fin 32)).isLt
  have hx5 := (X (5 : Fin 32)).isLt
  have hx6 := (X (6 : Fin 32)).isLt
  have hx7 := (X (7 : Fin 32)).isLt
  have hx8 := (X (8 : Fin 32)).isLt
  have hx9 := (X (9 : Fin 32)).isLt
  have hx10 := (X (10 : Fin 32)).isLt
  have hx11 := (X (11 : Fin 32)).isLt
  have hx12 := (X (12 : Fin 32)).isLt
  have hx13 := (X (13 : Fin 32)).isLt
  have hx14 := (X (14 : Fin 32)).isLt
  have hx15 := (X (15 : Fin 32)).isLt
  have hx16 := (X (16 : Fin 32)).isLt
  have hx17 := (X (17 : Fin 32)).isLt
  have hx18 := (X (18 : Fin 32)).isLt
  have hx19 := (X (19 : Fin 32)).isLt
  have hx20 := (X (20 : Fin 32)).isLt
  have hx21 := (X (21 : Fin 32)).isLt
  have hx22 := (X (22 : Fin 32)).isLt
  have hx23 := (X (23 : Fin 32)).isLt
  have hx24 := (X (24 : Fin 32)).isLt
  have hx25 := (X (25 : Fin 32)).isLt
  have hx26 := (X (26 : Fin 32)).isLt
  have hx27 := (X (27 : Fin 32)).isLt
  have hx28 := (X (28 : Fin 32)).isLt
  have hx29 := (X (29 : Fin 32)).isLt
  have hx30 := (X (30 : Fin 32)).isLt
  have hx31 := (X (31 : Fin 32)).isLt
  have hy0 := (Y (0 : Fin 32)).isLt
  have hy1 := (Y (1 : Fin 32)).isLt
  have hy2 := (Y (2 : Fin 32)).isLt
  have hy3 := (Y (3 : Fin 32)).isLt
  have hy4 := (Y (4 : Fin 32)).isLt
  have hy5 := (Y (5 : Fin 32)).isLt
  have hy6 := (Y (6 : Fin 32)).isLt
  have hy7 := (Y (7 : Fin 32)).isLt
  have hy8 := (Y (8 : Fin 32)).isLt
  have hy9 := (Y (9 : Fin 32)).isLt
  have hy10 := (Y (10 : Fin 32)).isLt
  have hy11 := (Y (11 : Fin 32)).isLt
  have hy12 := (Y (12 : Fin 32)).isLt
  have hy13 := (Y (13 : Fin 32)).isLt
  have hy14 := (Y (14 : Fin 32)).isLt
  have hy15 := (Y (15 : Fin 32)).isLt
  have hy16 := (Y (16 : Fin 32)).isLt
  have hy17 := (Y (17 : Fin 32)).isLt
  have hy18 := (Y (18 : Fin 32)).isLt
  have hy19 := (Y (19 : Fin 32)).isLt
  have hy20 := (Y (20 : Fin 32)).isLt
  have hy21 := (Y (21 : Fin 32)).isLt
  have hy22 := (Y (22 : Fin 32)).isLt
  have hy23 := (Y (23 : Fin 32)).isLt
  have hy24 := (Y (24 : Fin 32)).isLt
  have hy25 := (Y (25 : Fin 32)).isLt
  have hy26 := (Y (26 : Fin 32)).isLt
  have hy27 := (Y (27 : Fin 32)).isLt
  have hy28 := (Y (28 : Fin 32)).isLt
  have hy29 := (Y (29 : Fin 32)).isLt
  have hy30 := (Y (30 : Fin 32)).isLt
  have hy31 := (Y (31 : Fin 32)).isLt
  have hbytes : (X (0 : Fin 32) : ℕ) = (Y (0 : Fin 32) : ℕ) ∧
      (X (1 : Fin 32) : ℕ) = (Y (1 : Fin 32) : ℕ) ∧
      (X (2 : Fin 32) : ℕ) = (Y (2 : Fin 32) : ℕ) ∧
      (X (3 : Fin 32) : ℕ) = (Y (3 : Fin 32) : ℕ) ∧
      (X (4 : Fin 32) : ℕ) = (Y (4 : Fin 32) : ℕ) ∧
      (X (5 : Fin 32) : ℕ) = (Y (5 : Fin 32) : ℕ) ∧
      (X (6 : Fin 32) : ℕ) = (Y (6 : Fin 32) : ℕ) ∧
      (X (7 : Fin 32) : ℕ) = (Y (7 : Fin 32) : ℕ) ∧
      (X (8 : Fin 32) : ℕ) = (Y (8 : Fin 32) : ℕ) ∧
      (X (9 : Fin 32) : ℕ) = (Y (9 : Fin 32) : ℕ) ∧
      (X (10 : Fin 32) : ℕ) = (Y (10 : Fin 32) : ℕ) ∧
      (X (11 : Fin 32) : ℕ) = (Y (11 : Fin 32) : ℕ) ∧
      (X (12 : Fin 32) : ℕ) = (Y (12 : Fin 32) : ℕ) ∧
      (X (13 : Fin 32) : ℕ) = (Y (13 : Fin 32) : ℕ) ∧
      (X (14 : Fin 32) : ℕ) = (Y (14 : Fin 32) : ℕ) ∧
      (X (15 : Fin 32) : ℕ) = (Y (15 : Fin 32) : ℕ) ∧
      (X (16 : Fin 32) : ℕ) = (Y (16 : Fin 32) : ℕ) ∧
      (X (17 : Fin 32) : ℕ) = (Y (17 : Fin 32) : ℕ) ∧
      (X (18 : Fin 32) : ℕ) = (Y (18 : Fin 32) : ℕ) ∧
      (X (19 : Fin 32) : ℕ) = (Y (19 : Fin 32) : ℕ) ∧
      (X (20 : Fin 32) : ℕ) = (Y (20 : Fin 32) : ℕ) ∧
      (X (21 : Fin 32) : ℕ) = (Y (21 : Fin 32) : ℕ) ∧
      (X (22 : Fin 32) : ℕ) = (Y (22 : Fin 32) : ℕ) ∧
      (X (23 : Fin 32) : ℕ) = (Y (23 : Fin 32) : ℕ) ∧
      (X (24 : Fin 32) : ℕ) = (Y (24 : Fin 32) : ℕ) ∧
      (X (25 : Fin 32) : ℕ) = (Y (25 : Fin 32) : ℕ) ∧
      (X (26 : Fin 32) : ℕ) = (Y (26 : Fin 32) : ℕ) ∧
      (X (27 : Fin 32) : ℕ) = (Y (27 : Fin 32) : ℕ) ∧
      (X (28 : Fin 32) : ℕ) = (Y (28 : Fin 32) : ℕ) ∧
      (X (29 : Fin 32) : ℕ) = (Y (29 : Fin 32) : ℕ) ∧
      (X (30 : Fin 32) : ℕ) = (Y (30 : Fin 32) : ℕ) ∧
      (X (31 : Fin 32) : ℕ) = (Y (31 : Fin 32) : ℕ) := by
    omega
  obtain ⟨e0, e1, e2, e3, e4, e5, e6, e7, e8, e9, e10, e11, e12, e13, e14, e15, e16, e17, e18, e19, e20, e21, e22, e23, e24, e25, e26, e27, e28, e29, e30, e31⟩ := hbytes
  funext i
  fin_cases i
  · exact Fin.ext e0
  · exact Fin.ext e1
  · exact Fin.ext e2
  · exact Fin.ext e3
  · exact Fin.ext e4
  · exact Fin.ext e5
  · exact Fin.ext e6
  · exact Fin.ext e7
  · exact Fin.ext e8
  · exact Fin.ext e9
  · exact Fin.ext e10
  · exact Fin.ext e11
  · exact Fin.ext e12
  · exact Fin.ext e13
  · exact Fin.ext e14
  · exact Fin.ext e15
  · exact Fin.ext e16
  · exact Fin.ext e17
  · exact Fin.ext e18
  · exact Fin.ext e19
  · exact Fin.ext e20
  · exact Fin.ext e21
  · exact Fin.ext e22
  · exact Fin.ext e23
  · exact Fin.ext e24
  · exact Fin.ext e25
  · exact Fin.ext e26
  · exact Fin.ext e27
  · exact Fin.ext e28
  · exact Fin.ext e29
  · exact Fin.ext e30
  · exact Fin.ext e31

/-! ## Claims C1–C3 -/

/-- **C1.** With `RANGE_FROM = 18` and `RANGE_TO = 120`, verification of a
proof generated by `MinAgeProof::generate_proof` against the matching
verifying key and `public_input(account)` returns false for every
out-of-range age and true for every in-range age; in particular age 6 fails,
ages 18, 19 and 119 pass, and age 120 fails.  (Verification is the
constraint-satisfaction contract `verifies`; the proof is the cell
assignment committed by `assign`.) -/
theorem c1_range_soundness :
    (∀ (age : ℕ) (acc : Account), age < 2 ^ 64 →
      (verifies 18 120 (assign 18 ((age : ℕ) : Fp) (public_input 18 acc))
          (public_input 18 acc) ↔
        18 ≤ age ∧ age < 120)) ∧
    (∀ acc : Account,
      ¬ verifies 18 120 (assign 18 ((6 : ℕ) : Fp) (public_input 18 acc))
          (public_input 18 acc) ∧
      verifies 18 120 (assign 18 ((18 : ℕ) : Fp) (public_input 18 acc))
          (public_input 18 acc) ∧
      verifies 18 120 (assign 18 ((19 : ℕ) : Fp) (public_input 18 acc))
          (public_input 18 acc) ∧
      verifies 18 120 (assign 18 ((119 : ℕ) : Fp) (public_input 18 acc))
          (public_input 18 acc) ∧
      ¬ verifies 18 120 (assign 18 ((120 : ℕ) : Fp) (public_input 18 acc))
          (public_input 18 acc)) := by
  refine ⟨fun age acc hage => honest_verifies_iff age acc hage, fun acc => ?_⟩
  refine ⟨?_, ?_, ?_, ?_, ?_⟩
  · intro h
    have := (honest_verifies_iff 6 acc (by norm_num)).mp h
    omega
  · exact (honest_verifies_iff 18 acc (by norm_num)).mpr ⟨by omega, by omega⟩
  · exact (honest_verifies_iff 19 acc (by norm_num)).mpr ⟨by omega, by omega⟩
  · exact (honest_verifies_iff 119 acc (by norm_num)).mpr ⟨by omega, by omega⟩
  · intro h
    have := (honest_verifies_iff 120 acc (by norm_num)).mp h
    omega

theorem c1_range_soundness_witness :
    (19 : ℕ) < 2 ^ 64 ∧
      (verifies 18 120
          (assign 18 ((19 : ℕ) : Fp) (public_input 18 (fun _ => 0)))
          (public_input 18 (fun _ => 0)) ↔
        18 ≤ (19 : ℕ) ∧ (19 : ℕ) < 120) :=
  ⟨by norm_num, c1_range_soundness.1 19 (fun _ => 0) (by norm_num)⟩

/-- **C2.** Completeness: for every age `a` with `RANGE_FROM ≤ a < RANGE_TO`
and every 32-byte account, the honestly generated proof (cells committed by
`assign` on the witness `Fp::from(age)` and `public_input(acc)`) verifies
against `public_input(acc)`. -/
theorem c2_completeness (age : ℕ) (acc : Account)
    (h1 : 18 ≤ age) (h2 : age < 120) :
    verifies 18 120 (assign 18 ((age : ℕ) : Fp) (public_input 18 acc))
      (public_input 18 acc) :=
  (honest_verifies_iff age acc (by omega)).mpr ⟨h1, h2⟩

theorem c2_completeness_witness :
    18 ≤ (25 : ℕ) ∧ (25 : ℕ) < 120 ∧
      verifies 18 120
        (assign 18 ((25 : ℕ) : Fp) (public_input 18 (fun _ => 1)))
        (public_input 18 (fun _ => 1)) :=
  ⟨by norm_num, by norm_num,
    c2_completeness 25 (fun _ => 1) (by norm_num) (by norm_num)⟩

/-- **C3.** Identity binding: for every in-range age and accounts `X ≠ Y`
(differing in at least one byte), the proof generated for `X` fails
verification against `public_input(Y)`. -/
theorem c3_identity_binding (age : ℕ) (X Y : Account)
    (h1 : 18 ≤ age) (h2 : age < 120) (hne : X ≠ Y) :
    ¬ verifies 18 120 (assign 18 ((age : ℕ) : Fp) (public_input 18 X))
        (public_input 18 Y) := by
  intro hver
  obtain ⟨-, -, -, hc1, hc2⟩ := hver
  simp only [assign] at hc1 hc2
  rw [public_input_one, public_input_one] at hc1
  rw [public_input_two, public_input_two] at hc2
  apply hne
  apply account_eq_of_halves_eq
  · exact natCast_fp_inj
      (lt_trans (accountLow_lt X) two_pow_128_lt_frOrder)
      (lt_trans (accountLow_lt Y) two_pow_128_lt_frOrder) hc1
  · exact natCast_fp_inj
      (lt_trans (accountHigh_lt X) two_pow_128_lt_frOrder)
      (lt_trans (accountHigh_lt Y) two_pow_128_lt_frOrder) hc2

theorem c3_identity_binding_witness :
    18 ≤ (21 : ℕ) ∧ (21 : ℕ) < 120 ∧
      ((fun _ => 1 : Account) ≠ (fun _ => 2 : Account)) ∧
      ¬ verifies 18 120
        (assign 18 ((21 : ℕ) : Fp) (public_input 18 (fun _ => 1)))
        (public_input 18 (fun _ => 2)) :=
  ⟨by norm_num, by norm_num, by decide,
    c3_identity_binding 21 (fun _ => 1) (fun _ => 2) (by norm_num) (by norm_num)
      (by decide)⟩

/-! ## Setup generation (`Setup::generate`, `proofs.rs` lines 39–52) -/

/-- Modelled from the spec: `ParamsKZG::<Bn256>::mock_rng()` is the halo2
library's deterministic test randomness source (library code, not in this
repository); the spec calls the path through it "a non-secure deterministic
randomness path".  All that the claims use is that it is one fixed stream,
a constant of the program, independent of any OS entropy. -/
def mock_rng : ℕ → ℕ := fun _ => 0

/-- Rows occupied by the circuit: `InRangeChip::assign` lays out exactly
rows 0, 1 and 2 of its region. -/
def circuitRows : ℕ := 3

/-- `Setup::generate` (`proofs.rs` lines 39–52), parameterized by the halo2
parameter generator `paramsSetup` (`ParamsKZG::setup`, library code) and by
the OS entropy stream the process could draw (`OsRng`).  The source passes
`mock_rng()` to `ParamsKZG::setup` — the `OsRng` alternative on the next
line is commented out — so the entropy argument is never consulted.
Key generation (`keygen_vk` / `keygen_pk`) is library code; modelled from
the spec: it "fails with a configuration error if `k` cannot accommodate
the circuit's degree/row requirements", i.e. iff `2 ^ k` rows cannot hold
the `circuitRows` assigned rows (the KZG backend imposes no `k`-dependent
degree cap: the source's own shape, a degree-103 gate at `k = 4`, is
accepted).  Nothing in `Setup::generate` or the chip inspects
`RANGE_FROM < RANGE_TO`. -/
def Setup.generate {Params : Type} (paramsSetup : ℕ → (ℕ → ℕ) → Params)
    (osEntropy : ℕ → ℕ) (RANGE_FROM RANGE_TO k : ℕ) :
    Except String Params :=
  if circuitRows ≤ 2 ^ k then Except.ok (paramsSetup k mock_rng)
  else Except.error "vk generation failed"

/-- **C4.** The claim requires SRS generation to draw from a secure
randomness source, with two independent runs yielding distinct parameters.
The code violates it: `Setup::generate` hands `ParamsKZG::setup` the
deterministic `mock_rng()`, so for every possible library implementation of
the parameter generator, runs under arbitrary distinct OS entropy streams
produce identical parameters. -/
theorem c4_srs_entropy_independent {Params : Type}
    (paramsSetup : ℕ → (ℕ → ℕ) → Params) (e1 e2 : ℕ → ℕ) (F T k : ℕ) :
    Setup.generate paramsSetup e1 F T k = Setup.generate paramsSetup e2 F T k :=
  rfl

/-- **C5 counterexample.** With the program's `CIRCUIT_MAX_K = 4` and the
inverted range `RANGE_FROM = 150 ≥ RANGE_TO = 120`, setup generation
succeeds — there is no fail-fast configuration error — because the empty
range collapses `in_range_exp` to the constant polynomial `1` (shown here at
`v = 0`), leaving a shape-valid gate which keygen accepts. -/
theorem c5_counterexample :
    Setup.generate (fun _ _ => ()) (fun _ => 0) 150 120 4 = Except.ok () ∧
      in_range_exp 150 120 0 = 1 :=
  ⟨rfl, rfl⟩

/-- **C5 (amended).** Setup generation fails fast exactly when `k` is too
small for the circuit's row requirement; `RANGE_FROM ≥ RANGE_TO` is not
validated: for any bounds, inverted ones included, generation succeeds
whenever the rows fit, and the inverted-range gate product is constantly 1
(making every honest proof unverifiable, not the setup fail). -/
theorem c5_setup_errors {Params : Type} (paramsSetup : ℕ → (ℕ → ℕ) → Params)
    (e : ℕ → ℕ) (F T k : ℕ) :
    (2 ^ k < circuitRows →
      Setup.generate paramsSetup e F T k = Except.error "vk generation failed") ∧
    (circuitRows ≤ 2 ^ k →
      ∃ p, Setup.generate paramsSetup e F T k = Except.ok p) ∧
    (T ≤ F → ∀ v : Fp, in_range_exp F T v = 1) := by
  refine ⟨?_, ?_, ?_⟩
  · intro h
    rw [Setup.generate, if_neg (by omega)]
  · intro h
    exact ⟨_, by rw [Setup.generate, if_pos h]⟩
  · intro h v
    have hTF : T - F = 0 := by omega
    simp [in_range_exp, hTF]

theorem c5_setup_errors_witness :
    Setup.generate (fun _ _ => ()) (fun _ => 0) 18 120 1 =
        Except.error "vk generation failed" ∧
      (∃ p, Setup.generate (fun _ _ => ()) (fun _ => 0) 150 120 4 = Except.ok p) ∧
      in_range_exp 150 120 0 = 1 :=
  ⟨(c5_setup_errors (fun _ _ => ()) (fun _ => 0) 18 120 1).1 (by decide),
   (c5_setup_errors (fun _ _ => ()) (fun _ => 0) 150 120 4).2.1 (by decide),
   (c5_setup_errors (fun _ _ => ()) (fun _ => 0) 150 120 4).2.2 (by decide) 0⟩

/-! ## Proof generation (`MinAgeProof::generate_proof`, lines 135–151) -/

/-- `MinAgeProof::generate_proof`: builds the circuit with witness
`Value::known(Fp::from(age))`, computes `public_input(for_account)` and runs
`create_proof`.  Modelled from the spec: `create_proof` (halo2 library code)
"completes mechanically" for any witness — an out-of-range witness does not
error, the prover commits whatever cells `assign` lays out — so with a valid
setup the call returns the committed cells. -/
def MinAgeProof.generate_proof (RANGE_FROM : ℕ) (age : ℕ) (acc : Account) :
    Except String CellAssignment :=
  Except.ok (assign RANGE_FROM ((age : ℕ) : Fp) (public_input RANGE_FROM acc))

/-- **C6.** For every out-of-range `u64` age, proof generation completes
without error and returns committed cells; only verification of the result
(against the very public input it was generated for) fails. -/
theorem c6_generation_never_errors (age : ℕ) (acc : Account)
    (hage : age < 2 ^ 64) (hout : age < 18 ∨ 120 ≤ age) :
    ∃ cells, MinAgeProof.generate_proof 18 age acc = Except.ok cells ∧
      ¬ verifies 18 120 cells (public_input 18 acc) := by
  refine ⟨_, rfl, fun hver => ?_⟩
  have := (honest_verifies_iff age acc hage).mp hver
  omega

theorem c6_generation_never_errors_witness :
    (130 : ℕ) < 2 ^ 64 ∧ ((130 : ℕ) < 18 ∨ 120 ≤ (130 : ℕ)) ∧
      ∃ cells,
        MinAgeProof.generate_proof 18 130 (fun _ => 3) = Except.ok cells ∧
          ¬ verifies 18 120 cells (public_input 18 (fun _ => 3)) :=
  ⟨by norm_num, by norm_num,
    c6_generation_never_errors 130 (fun _ => 3) (by norm_num) (by norm_num)⟩

/-! ## Setup serialization (`proofs.rs` lines 55–101) -/

/-- `Setup` (`proofs.rs`): `{ k, pk, vk, params }`.  The library types for
the KZG parameters and the two keys are abstract type parameters. -/
structure Setup (Params PK VK : Type) where
  k : ℕ
  pk : PK
  vk : VK
  params : Params

/-- `Setup::to_bytes` (lines 55–65): raw params bytes
(`write_custom(RawBytesUnchecked)`) concatenated with raw proving-key bytes;
the two codecs belong to the library and are abstracted as `paramsWrite` and
`pkWrite`. -/
def Setup.to_bytes {Params PK VK : Type} (paramsWrite : Params → List ℕ)
    (pkWrite : PK → List ℕ) (s : Setup Params PK VK) : List ℕ :=
  paramsWrite s.params ++ pkWrite s.pk

/-- `Setup.from_bytes` (lines 85–101): reads the params from the front of
the stream, then the proving key from what remains, and rebuilds the setup
with `k := params.k()` and `vk := pk.get_vk()`.  `paramsRead` / `pkRead`
are the library decoders (returning the value and the unconsumed rest),
`paramsK` is `ParamsKZG::k()`, `getVk` is `ProvingKey::get_vk()`. -/
def Setup.from_bytes {Params PK VK : Type}
    (paramsRead : List ℕ → Option (Params × List ℕ))
    (pkRead : List ℕ → Option (PK × List ℕ))
    (paramsK : Params → ℕ) (getVk : PK → VK) (buffer : List ℕ) :
    Option (Setup Params PK VK) :=
  match paramsRead buffer with
  | none => none
  | some (params, rest) =>
    match pkRead rest with
    | none => none
    | some (pk, _) => some ⟨paramsK params, pk, getVk pk, params⟩

/-- **C7.** Serialization round trip.  Hypotheses: the two library codecs
satisfy the spec's round-trip law in its streaming form (modelled from the
spec: reading what was written consumes exactly the written prefix and
returns the value), `params.k()` recovers the `k` the setup carries and
`pk.get_vk()` is the setup's verifying key — both hold for every setup
`Setup::generate` produces.  Then `from_bytes (to_bytes s)` succeeds and
returns `s` itself: same `k`, identical params (hence matching
pairing-check values) and an identical proving key (hence byte-identical
re-serialization). -/
theorem c7_serialization_roundtrip {Params PK VK : Type}
    (paramsWrite : Params → List ℕ)
    (paramsRead : List ℕ → Option (Params × List ℕ))
    (pkWrite : PK → List ℕ) (pkRead : List ℕ → Option (PK × List ℕ))
    (paramsK : Params → ℕ) (getVk : PK → VK)
    (hparams : ∀ x rest, paramsRead (paramsWrite x ++ rest) = some (x, rest))
    (hpk : ∀ x rest, pkRead (pkWrite x ++ rest) = some (x, rest))
    (s : Setup Params PK VK)
    (hk : paramsK s.params = s.k) (hvk : getVk s.pk = s.vk) :
    Setup.from_bytes paramsRead pkRead paramsK getVk
        (Setup.to_bytes paramsWrite pkWrite s) = some s := by
  have h1 : paramsRead (paramsWrite s.params ++ pkWrite s.pk) =
      some (s.params, pkWrite s.pk) := hparams s.params (pkWrite s.pk)
  have h2 : pkRead (pkWrite s.pk) = some (s.pk, []) := by
    have := hpk s.pk []
    simpa using this
  simp [Setup.from_bytes, Setup.to_bytes, h1, h2, hk, hvk]

theorem c7_serialization_roundtrip_witness :
    (∀ x rest, (fun l => match l with
        | [] => none
        | a :: r => some (a, r)) (([x] : List ℕ) ++ rest) = some (x, rest)) ∧
      Setup.from_bytes
          (fun l => match l with
            | [] => none
            | a :: r => some (a, r))
          (fun l => match l with
            | [] => none
            | a :: r => some (a, r))
          (fun p => p + 2) (fun pk => pk * 3)
          (Setup.to_bytes (fun p => [p]) (fun pk => [pk])
            (⟨7, 4, 12, 5⟩ : Setup ℕ ℕ ℕ)) =
        some (⟨7, 4, 12, 5⟩ : Setup ℕ ℕ ℕ) :=
  ⟨fun x rest => rfl,
    c7_serialization_roundtrip (fun p => [p])
      (fun l => match l with
        | [] => none
        | a :: r => some (a, r))
      (fun pk => [pk])
      (fun l => match l with
        | [] => none
        | a :: r => some (a, r))
      (fun p => p + 2) (fun pk => pk * 3)
      (fun x rest => rfl) (fun x rest => rfl)
      (⟨7, 4, 12, 5⟩ : Setup ℕ ℕ ℕ) rfl rfl⟩

/-! ## Verifying-key publication blob (`Setup::vk_to_bytes`, lines 70–78) -/

/-- `u32::to_le_bytes k`: the four little-endian base-256 digits of `k`. -/
def u32LeBytes (k : ℕ) : List ℕ :=
  [k % 256, k / 256 % 256, k / 65536 % 256, k / 16777216 % 256]

/-- `Setup::vk_to_bytes` (lines 70–78): `k.to_le_bytes()` followed by the
raw verifying-key bytes (`vk.to_bytes(RawBytesUnchecked)`, the library
codec abstracted as `vkWrite`). -/
def Setup.vk_to_bytes {Params PK VK : Type} (vkWrite : VK → List ℕ)
    (s : Setup Params PK VK) : List ℕ :=
  u32LeBytes s.k ++ vkWrite s.vk

/-- **C8.** The publication blob is exactly the 4-byte little-endian
encoding of `k` followed by the raw verifying-key bytes and nothing else:
its length is 4 plus the key bytes, its first four bytes are genuine bytes
(< 256) that decode little-endian back to `k`, and dropping them leaves
precisely the raw verifying-key bytes. -/
theorem c8_vk_blob {Params PK VK : Type} (vkWrite : VK → List ℕ)
    (s : Setup Params PK VK) (hk : s.k < 2 ^ 32) :
    (Setup.vk_to_bytes vkWrite s).length = 4 + (vkWrite s.vk).length ∧
    (Setup.vk_to_bytes vkWrite s).take 4 = u32LeBytes s.k ∧
    leBytesToNat ((Setup.vk_to_bytes vkWrite s).take 4) = s.k ∧
    (Setup.vk_to_bytes vkWrite s).drop 4 = vkWrite s.vk ∧
    ∀ b ∈ (Setup.vk_to_bytes vkWrite s).take 4, b < 256 := by
  have hlen : (u32LeBytes s.k).length = 4 := rfl
  have htake : (Setup.vk_to_bytes vkWrite s).take 4 = u32LeBytes s.k := by
    rw [Setup.vk_to_bytes, ← hlen, List.take_left]
  have hdrop : (Setup.vk_to_bytes vkWrite s).drop 4 = vkWrite s.vk := by
    rw [Setup.vk_to_bytes, ← hlen, List.drop_left]
  refine ⟨?_, htake, ?_, hdrop, ?_⟩
  · rw [Setup.vk_to_bytes, List.length_append, hlen]
  · rw [htake]
    simp only [u32LeBytes, leBytesToNat]
    omega
  · rw [htake]
    intro b hb
    simp only [u32LeBytes, List.mem_cons, List.not_mem_nil, or_false] at hb
    rcases hb with rfl | rfl | rfl | rfl <;> omega

theorem c8_vk_blob_witness :
    (4 : ℕ) < 2 ^ 32 ∧
      ((Setup.vk_to_bytes (fun v => [v, v]) (⟨4, 0, 9, 0⟩ : Setup ℕ ℕ ℕ)).length =
          4 + ([9, 9] : List ℕ).length ∧
        (Setup.vk_to_bytes (fun v => [v, v]) (⟨4, 0, 9, 0⟩ : Setup ℕ ℕ ℕ)).take 4 =
          u32LeBytes 4 ∧
        leBytesToNat
            ((Setup.vk_to_bytes (fun v => [v, v])
              (⟨4, 0, 9, 0⟩ : Setup ℕ ℕ ℕ)).take 4) = 4 ∧
        (Setup.vk_to_bytes (fun v => [v, v]) (⟨4, 0, 9, 0⟩ : Setup ℕ ℕ ℕ)).drop 4 =
          [9, 9] ∧
        ∀ b ∈ (Setup.vk_to_bytes (fun v => [v, v])
            (⟨4, 0, 9, 0⟩ : Setup ℕ ℕ ℕ)).take 4, b < 256) :=
  ⟨by norm_num, c8_vk_blob (fun v => [v, v]) (⟨4, 0, 9, 0⟩ : Setup ℕ ℕ ℕ) (by norm_num)⟩

/-! ## The public-input vector as the specification words it (C9) -/

/-- Byte `i` of the 32-byte account, as a natural number (0 outside the
identifier; never reached for the indices used here). -/
def byteAt (acc : Account) (i : ℕ) : ℕ :=
  if h : i < 32 then (acc ⟨i, h⟩ : ℕ) else 0

/-- Little-endian reading is the base-256 positional sum. -/
theorem leBytesToNat_eq_sum :
    ∀ l : List ℕ,
      leBytesToNat l = ∑ i ∈ Finset.range l.length, 256 ^ i * l.getD i 0 := by
  intro l
  induction l with
  | nil => simp [leBytesToNat]
  | cons b bs ih =>
    show b + 256 * leBytesToNat bs = _
    rw [ih, List.length_cons, Finset.sum_range_succ']
    simp only [List.getD_cons_succ, List.getD_cons_zero, pow_succ, pow_zero, one_mul]
    rw [Finset.mul_sum, add_comm]
    congr 1
    apply Finset.sum_congr rfl
    intro x hx
    ring

/-- The low half is the positional sum of bytes 0–15. -/
theorem accountLow_eq_sum (acc : Account) :
    accountLow acc = ∑ i ∈ Finset.range 16, 256 ^ i * byteAt acc i := by
  rw [accountLow, leBytesToNat_eq_sum]
  have hlen : (lowBytes acc).length = 16 := rfl
  rw [hlen]
  apply Finset.sum_congr rfl
  intro i hi
  rw [Finset.mem_range] at hi
  congr 1
  interval_cases i <;> rfl

/-- The high half is the positional sum of bytes 16–31. -/
theorem accountHigh_eq_sum (acc : Account) :
    accountHigh acc = ∑ i ∈ Finset.range 16, 256 ^ i * byteAt acc (16 + i) := by
  rw [accountHigh, leBytesToNat_eq_sum]
  have hlen : (highBytes acc).length = 16 := rfl
  rw [hlen]
  apply Finset.sum_congr rfl
  intro i hi
  rw [Finset.mem_range] at hi
  congr 1
  interval_cases i <;> rfl

/-- The specification's own wording of the public-input vector (§3): the
fixed-order triple `[rangeFromField, accountLowField, accountHighField]`,
where each account half is the base-256 little-endian value of its 16 bytes,
embedded into the field.  Stated independently of the source's
slice-and-`from_le_bytes` formulation so that agreement is a theorem, not a
definition. -/
def public_input_spec (RANGE_FROM : ℕ) (acc : Account) : Fin 3 → Fp
  | ⟨0, _⟩ => (RANGE_FROM : Fp)
  | ⟨1, _⟩ => ((∑ i ∈ Finset.range 16, 256 ^ i * byteAt acc i : ℕ) : Fp)
  | ⟨2, _⟩ => ((∑ i ∈ Finset.range 16, 256 ^ i * byteAt acc (16 + i) : ℕ) : Fp)

/-- **C9.** `public_input` is the ordered triple the specification
describes — `field(RANGE_FROM)`, then the low half, then the high half,
each half the little-endian value of its 16 bytes — and each half occupies
only the low 128 bits of its field element: its canonical value is exactly
the 128-bit integer, in particular below `2 ^ 128` (high bits zero). -/
theorem c9_public_input_shape (acc : Account) :
    public_input 18 acc = public_input_spec 18 acc ∧
    (public_input 18 acc 1).val = accountLow acc ∧
    (public_input 18 acc 2).val = accountHigh acc ∧
    (public_input 18 acc 1).val < 2 ^ 128 ∧
    (public_input 18 acc 2).val < 2 ^ 128 := by
  have hv1 : (public_input 18 acc 1).val = accountLow acc := by
    rw [public_input_one]
    exact ZMod.val_cast_of_lt (lt_trans (accountLow_lt acc) two_pow_128_lt_frOrder)
  have hv2 : (public_input 18 acc 2).val = accountHigh acc := by
    rw [public_input_two]
    exact ZMod.val_cast_of_lt (lt_trans (accountHigh_lt acc) two_pow_128_lt_frOrder)
  refine ⟨?_, hv1, hv2, ?_, ?_⟩
  · funext i
    rcases i with ⟨iv, hiv⟩
    interval_cases iv
    · rfl
    · show (accountLow acc : Fp) =
        ((∑ i ∈ Finset.range 16, 256 ^ i * byteAt acc i : ℕ) : Fp)
      exact congrArg Nat.cast (accountLow_eq_sum acc)
    · show (accountHigh acc : Fp) =
        ((∑ i ∈ Finset.range 16, 256 ^ i * byteAt acc (16 + i) : ℕ) : Fp)
      exact congrArg Nat.cast (accountHigh_eq_sum acc)
  · rw [hv1]
    exact accountLow_lt acc
  · rw [hv2]
    exact accountHigh_lt acc

/-! ## Client-side setup handling (`min_age_proof_ops.rs`) -/

/-- `MinAgeProofOps` (`min_age_proof_ops.rs`): the client operations object,
holding `setup : Option<Setup>`; the setup payload is abstract here. -/
structure MinAgeProofOps (S : Type) where
  setup : Option S

/-- `MinAgeProofOps::load_setup` (lines 39–44): first sets `self.setup =
None`, then reads the file (`fileRead` is the outcome of `std::fs::read`),
then deserializes (`deser`, i.e. `MinAgeProof::load_setup`); each `?` early
return leaves the already-cleared state behind.  Returns the new state and
the call's result. -/
def MinAgeProofOps.load_setup {S : Type} (st : MinAgeProofOps S)
    (fileRead : Option (List ℕ)) (deser : List ℕ → Except String S) :
    MinAgeProofOps S × Except String Unit :=
  let cleared : MinAgeProofOps S := { st with setup := none }
  match fileRead with
  | none => (cleared, Except.error "failed to read ZKP setup from file")
  | some bs =>
    match deser bs with
    | Except.error e => (cleared, Except.error e)
    | Except.ok s => ({ cleared with setup := some s }, Except.ok ())

/-- `MinAgeProofOps::generate_proof` (lines 51–66): with no held setup it
bails with the missing-setup error; otherwise it runs the prover on the held
setup (abstracted as `gen`). -/
def MinAgeProofOps.generate_proof {S Proof : Type} (st : MinAgeProofOps S)
    (gen : S → Except String Proof) : Except String Proof :=
  match st.setup with
  | some s => gen s
  | none => Except.error "Missing trusted setup"

/-- **C10.** If `load_setup` fails — file unreadable or bytes
undeserializable — the operations object holds no setup (any setup held
before the call was discarded before the read was attempted), and every
subsequent `generate_proof` fails with the missing-setup error rather than
using a stale setup. -/
theorem c10_failed_load_clears_setup {S Proof : Type} (st : MinAgeProofOps S)
    (fileRead : Option (List ℕ)) (deser : List ℕ → Except String S)
    (e : String) (gen : S → Except String Proof)
    (hfail : (MinAgeProofOps.load_setup st fileRead deser).2 = Except.error e) :
    (MinAgeProofOps.load_setup st fileRead deser).1.setup = none ∧
      MinAgeProofOps.generate_proof (MinAgeProofOps.load_setup st fileRead deser).1
          gen =
        Except.error "Missing trusted setup" := by
  rcases fileRead with - | bs
  · exact ⟨rfl, rfl⟩
  · cases hd : deser bs with
    | error err =>
      constructor <;>
        simp [MinAgeProofOps.load_setup, MinAgeProofOps.generate_proof, hd]
    | ok s =>
      exfalso
      rw [MinAgeProofOps.load_setup] at hfail
      simp [hd] at hfail

theorem c10_failed_load_clears_setup_witness :
    (MinAgeProofOps.load_setup (⟨some 5⟩ : MinAgeProofOps ℕ) none
          (fun _ => Except.error "failed to read proving key")).2 =
        Except.error "failed to read ZKP setup from file" ∧
      ((MinAgeProofOps.load_setup (⟨some 5⟩ : MinAgeProofOps ℕ) none
            (fun _ => Except.error "failed to read proving key")).1.setup = none ∧
        MinAgeProofOps.generate_proof
            (MinAgeProofOps.load_setup (⟨some 5⟩ : MinAgeProofOps ℕ) none
              (fun _ => Except.error "failed to read proving key")).1
            (fun s => (Except.ok s : Except String ℕ)) =
          Except.error "Missing trusted setup") :=
  ⟨rfl,
    c10_failed_load_clears_setup (⟨some 5⟩ : MinAgeProofOps ℕ) none
      (fun _ => Except.error "failed to read proving key")
      "failed to read ZKP setup from file"
      (fun s => (Except.ok s : Except String ℕ)) rfl⟩

end AlephSubscriptions
